import Mathlib

/-!
Verification of the batch job orchestrator in
`app/services/batch_processor.py` (class `BatchProcessor`).

The embedding translates the Python source directly:
- the `self.batch_jobs` dict becomes an association list `List (String × BatchJob)`
  with dict semantics (`dget` / `dset` / deletion via filtering);
- the per-job record dict becomes the structure `BatchJob`; keys that are absent
  until first written (`end_time`, `total_time`) are `Option` fields;
- Python floats (`time.time()`, progress percentages, durations) are modelled as
  exact rationals `ℚ`;
- Python truthiness of the `result` / `error` arguments of
  `update_batch_progress` is modelled exactly: `result` is an `Option` of a
  record (the call sites only ever pass `None` or a non-empty dict, so
  truthiness coincides with `isSome`), `error` is an `Option String` and is
  truthy iff it is `some m` with `m ≠ ""` (Python: `if error:`).
-/

namespace RIB

/-- Dict lookup on an association list (Python `d[k]` / `k in d`). -/
def dget {β : Type} : List (String × β) → String → Option β
  | [], _ => none
  | (k, v) :: rest, key => if k = key then some v else dget rest key

/-- Dict assignment `d[k] = v`: replace the binding if the key is present,
otherwise add it. -/
def dset {β : Type} : List (String × β) → String → β → List (String × β)
  | [], key, v => [(key, v)]
  | (k, w) :: rest, key, v =>
      if k = key then (k, v) :: rest else (k, w) :: dset rest key v

/-- One entry of `job['results']`, as appended by `update_batch_progress`
(lines 56-63 of `batch_processor.py`). -/
structure ResultEntry where
  filename : String
  original_image : String
  processed_image : String
  processing_time : ℚ
  ai_model : String
deriving DecidableEq, Repr

/-- One entry of `job['errors']` (lines 65-69). -/
structure ErrorEntry where
  filename : String
  error : String
deriving DecidableEq, Repr

/-- The `result` dict passed by a worker to `update_batch_progress` on success:
it always carries `original_image`, `processed_image`, `processing_time` and
(read with `result.get('ai_model', DEFAULT_MODEL)`) possibly `ai_model`. -/
structure ResultRec where
  original_image : String
  processed_image : String
  processing_time : ℚ
  ai_model : Option String
deriving DecidableEq, Repr

/-- One job record of `self.batch_jobs`, mirroring the dict literal of
`create_batch_job` (lines 30-39).  `end_time` / `total_time` are keys that do
not exist until the completion branch writes them (lines 71-74). -/
structure BatchJob where
  total_files : Nat
  processed_files : Nat
  results : List ResultEntry
  errors : List ErrorEntry
  status : String
  start_time : ℚ
  progress : ℚ
  individual_progress : List (String × Int)
  end_time : Option ℚ
  total_time : Option ℚ
deriving DecidableEq, Repr

/-- The registry `self.batch_jobs`. -/
abbrev Registry := List (String × BatchJob)

/-- The fresh record installed by `create_batch_job` (lines 28-39). -/
def initialJob (total_files : Nat) (now : ℚ) : BatchJob :=
  { total_files := total_files
    processed_files := 0
    results := []
    errors := []
    status := "processing"
    start_time := now
    progress := 0
    individual_progress := []
    end_time := none
    total_time := none }

/-- `create_batch_job(batch_id, total_files)` (lines 28-39):
`self.batch_jobs[batch_id] = {...}`. -/
def create_batch_job (jobs : Registry) (batch_id : String) (total_files : Nat)
    (now : ℚ) : Registry :=
  dset jobs batch_id (initialJob total_files now)

/-- Python truthiness of the `error` argument (`if error:`): `None` and the
empty string are falsy. -/
def errTruthy : Option String → Bool
  | none => false
  | some m => !(m == "")

/-- The entry appended to `job['results']` (lines 57-63); `ai_model` is read
with `result.get('ai_model', self.config.DEFAULT_MODEL)`, `defaultModel`
standing for `self.config.DEFAULT_MODEL`. -/
def mkResultEntry (defaultModel filename : String) (r : ResultRec) : ResultEntry :=
  { filename := filename
    original_image := r.original_image
    processed_image := r.processed_image
    processing_time := r.processing_time
    ai_model := r.ai_model.getD defaultModel }

/-- The body of `update_batch_progress` (lines 46-74) acting on one job record,
with `now` the value `time.time()` would return in the completion branch.
Statement order follows the source exactly: individual-progress write,
conditional increment plus aggregate-progress write, `results` append,
`errors` append, completion check (`>=` in the source, hence `≤` flipped). -/
def update_batch_progress_job (defaultModel : String) (job : BatchJob)
    (filename status : String) (result : Option ResultRec)
    (error : Option String) (individual_progress : Option Int)
    (now : ℚ) : BatchJob :=
  let j1 : BatchJob := match individual_progress with
    | some p => { job with individual_progress := dset job.individual_progress filename p }
    | none => job
  let j2 : BatchJob := if status = "completed" ∨ status = "error" then
      { j1 with processed_files := j1.processed_files + 1
                progress := ((j1.processed_files + 1 : ℚ) / (j1.total_files : ℚ)) * 100 }
    else j1
  let j3 : BatchJob := match result with
    | some r => { j2 with results := j2.results ++ [mkResultEntry defaultModel filename r] }
    | none => j2
  let j4 : BatchJob := if errTruthy error then
      { j3 with errors := j3.errors ++ [{ filename := filename, error := error.getD "" }] }
    else j3
  if j4.total_files ≤ j4.processed_files then
    { j4 with status := "completed"
              end_time := some now
              total_time := some (now - j4.start_time) }
  else j4

/-- `update_batch_progress` at registry level (lines 41-74): the guard
`if batch_id not in self.batch_jobs: return` makes the call a no-op for an
unknown id. -/
def update_batch_progress (defaultModel : String) (jobs : Registry)
    (batch_id filename status : String) (result : Option ResultRec)
    (error : Option String) (individual_progress : Option Int)
    (now : ℚ) : Registry :=
  match dget jobs batch_id with
  | none => jobs
  | some job =>
      dset jobs batch_id
        (update_batch_progress_job defaultModel job filename status result error
          individual_progress now)

/-- The dict returned by `get_batch_status` (lines 192-202). -/
structure StatusView where
  batch_id : String
  status : String
  progress : ℚ
  total_files : Nat
  processed_files : Nat
  results : List ResultEntry
  errors : List ErrorEntry
  total_time : ℚ
  individual_progress : List (String × Int)
deriving DecidableEq, Repr

/-- `get_batch_status` (lines 186-202): `None` for an unknown id, otherwise a
snapshot dict; `total_time` is `job.get('total_time', 0)`. -/
def get_batch_status (jobs : Registry) (batch_id : String) : Option StatusView :=
  match dget jobs batch_id with
  | none => none
  | some job => some
      { batch_id := batch_id
        status := job.status
        progress := job.progress
        total_files := job.total_files
        processed_files := job.processed_files
        results := job.results
        errors := job.errors
        total_time := job.total_time.getD 0
        individual_progress := job.individual_progress }

/-- `cleanup_old_batches` (lines 204-214): collect every id with
`current_time - job['start_time'] > max_age`, then delete those ids.  On a
dict (unique keys) this is exactly filtering for the kept jobs. -/
def cleanup_old_batches (current_time : ℚ) (jobs : Registry) (max_age : ℚ) :
    Registry :=
  jobs.filter (fun p => !(decide (current_time - p.2.start_time > max_age)))

/-- Decimal digit character, as Python `str(int)` produces them. -/
def digitChar : Nat → Char
  | 0 => '0' | 1 => '1' | 2 => '2' | 3 => '3' | 4 => '4'
  | 5 => '5' | 6 => '6' | 7 => '7' | 8 => '8' | 9 => '9'
  | _ => '*'

/-- Digit list of the decimal representation of a natural number, with
structural fuel (any `fuel > n` gives the full representation). -/
def decCharsAux : Nat → Nat → List Char
  | 0, _ => []
  | fuel + 1, n =>
      if n < 10 then [digitChar n]
      else decCharsAux fuel (n / 10) ++ [digitChar (n % 10)]

/-- Digit list of the decimal representation of a natural number. -/
def decChars (n : Nat) : List Char :=
  decCharsAux (n + 1) n

/-- Python `str(n)` for a natural number. -/
def decString (n : Nat) : String :=
  String.mk (decChars n)

/-- `generate_batch_id` (lines 22-26): under `self.batch_lock` the counter is
incremented and the id formatted as
`f"batch_{self.batch_counter}_{int(time.time())}"`.  The lock makes
increment-and-format one atomic step, which is what letting the counter value
be the state models.  `tsec` is `int(time.time())`. -/
def generate_batch_id (batch_counter : Nat) (tsec : Nat) : Nat × String :=
  (batch_counter + 1,
    "batch_" ++ decString (batch_counter + 1) ++ "_" ++ decString tsec)

/-- The mutable state of a `BatchProcessor` instance relevant to the batch
claims: `self.batch_counter` and `self.batch_jobs`. -/
structure ProcessorState where
  batch_counter : Nat
  batch_jobs : Registry
deriving DecidableEq, Repr

/-- `process_batch` (lines 142-184), registry effect and return value: it
generates an id, registers a fresh job with `total_files = len(files)`, spawns
the background thread (whose per-item effects are modelled as traces below)
and immediately returns the id.  There is no validation of `files`; `files` is
abstracted to its list of filenames, `now` is `time.time()` at creation and
`tsec` is `int(time.time())` used in the id. -/
def process_batch (st : ProcessorState) (files : List String) (now : ℚ)
    (tsec : Nat) : ProcessorState × String :=
  let g := generate_batch_id st.batch_counter tsec
  ({ batch_counter := g.1
     batch_jobs := create_batch_job st.batch_jobs g.2 files.length now }, g.2)

/-! ## Worker traces

`process_single_image` (lines 76-140) reports to `update_batch_progress` in a
fixed pattern: some number of intermediate progress reports
(`status='processing'`, `individual_progress` one of 10/20/30/50/80/90), then
exactly one terminal report, which is either line 128
(`'completed'`, `result=result`, `individual_progress=100`) or line 134
(`'error'`, `error=str(e)`, `individual_progress=0`), and nothing afterwards.
A batch of `n` items runs one such worker per item; the concurrent execution
of the batch is the interleaving of the workers' reports, i.e. a trace of
events in which every event belongs to an item `idx < n`, and no event of an
item follows that item's terminal event.  (`process_batch` keys the job by the
uploaded filename, which workers pass along; the `file` field carries it.) -/

/-- What one call to `update_batch_progress` by a worker reports. -/
inductive EKind
  | progress (p : Int)
  | success (r : ResultRec)
  | failure (msg : String)
deriving DecidableEq, Repr

/-- One worker report: the item's index in the batch, the filename the worker
passes as `original_filename`, the `time.time()` value at the call, and what
is reported. -/
structure Event where
  idx : Nat
  file : String
  time : ℚ
  kind : EKind
deriving DecidableEq, Repr

/-- Terminal reports are the line-128 success and line-134 failure calls. -/
def isTerminal (e : Event) : Bool :=
  match e.kind with
  | .progress _ => false
  | .success _ => true
  | .failure _ => true

def isSuccessEv (e : Event) : Bool :=
  match e.kind with
  | .success _ => true
  | _ => false

def isFailureEv (e : Event) : Bool :=
  match e.kind with
  | .failure _ => true
  | _ => false

/-- A failure report that actually appends to `job['errors']`: by Python
truthiness of `if error:` the message must be non-empty. -/
def isRecordedFailure (e : Event) : Bool :=
  match e.kind with
  | .failure m => !(m == "")
  | _ => false

/-- The message of a failure event (`""` for other events). -/
def failureMsg (e : Event) : String :=
  match e.kind with
  | .failure m => m
  | _ => ""

/-- After a terminal event of an item, no later event of the same item. -/
def noLaterSameItem : List Event → Bool
  | [] => true
  | e :: rest =>
      ((!isTerminal e) || rest.all (fun e2 => !(e2.idx == e.idx))) && noLaterSameItem rest

/-- A trace is a possible interleaving of the per-item report sequences of a
batch of `n` items: every event is of an item `idx < n`, and each item's
terminal report (if any) is its last event. -/
def validTrace (n : Nat) (tr : List Event) : Bool :=
  tr.all (fun e => e.idx < n) && noLaterSameItem tr

/-- The `update_batch_progress` call a worker report corresponds to
(lines 80/90/97/107/118/121 for progress, line 128 for success, line 134 for
failure of `process_single_image`). -/
def applyEvent (defaultModel : String) (job : BatchJob) (e : Event) : BatchJob :=
  match e.kind with
  | .progress p =>
      update_batch_progress_job defaultModel job e.file "processing" none none (some p) e.time
  | .success r =>
      update_batch_progress_job defaultModel job e.file "completed" (some r) none (some 100) e.time
  | .failure m =>
      update_batch_progress_job defaultModel job e.file "error" none (some m) (some 0) e.time

/-- State of a job after a trace of worker reports. -/
def runTrace (defaultModel : String) (job : BatchJob) (tr : List Event) : BatchJob :=
  tr.foldl (applyEvent defaultModel) job

/-! ## Fine-grained interleaving of `update_batch_progress`

`update_batch_progress` runs on worker threads with no lock
(`self.batch_lock` is acquired only inside `generate_batch_id`, lines 24-26).
In CPython each single dict store and each `list.append` is one atomic
bytecode, but `job['processed_files'] += 1` (line 53) is a LOAD followed by a
STORE and can interleave with another thread's update.  The micro model below
splits one call into three atomic phases accordingly:
- `Phase.start → Phase.loaded r`: the `individual_progress` store (lines
  49-50) and the LOAD of `job['processed_files']` for line 53;
- `Phase.loaded r → Phase.stored`: the STORE of `processed_files := r + 1`
  and of `progress` (lines 53-54) plus the `results`/`errors` appends
  (lines 56-69);
- `Phase.stored → Phase.done`: the completion check (lines 71-74), re-reading
  `processed_files`. -/

/-- The arguments of one in-flight `update_batch_progress` call. -/
structure CallArgs where
  file : String
  status : String
  result : Option ResultRec
  error : Option String
  ip : Option Int
  time : ℚ
deriving DecidableEq, Repr

/-- Progress of one thread through the body of `update_batch_progress`. -/
inductive Phase
  | start
  | loaded (r : Nat)
  | stored
  | done
deriving DecidableEq, Repr

/-- One atomic phase of `update_batch_progress` executed against the shared
job record. -/
def microStep (defaultModel : String) (job : BatchJob) (c : CallArgs)
    (ph : Phase) : BatchJob × Phase :=
  match ph with
  | .start =>
      let j1 : BatchJob := match c.ip with
        | some p => { job with individual_progress := dset job.individual_progress c.file p }
        | none => job
      (j1, .loaded j1.processed_files)
  | .loaded r =>
      let j1 : BatchJob := if c.status = "completed" ∨ c.status = "error" then
          { job with processed_files := r + 1
                     progress := ((r + 1 : ℚ) / (job.total_files : ℚ)) * 100 }
        else job
      let j2 : BatchJob := match c.result with
        | some res => { j1 with results := j1.results ++ [mkResultEntry defaultModel c.file res] }
        | none => j1
      let j3 : BatchJob := if errTruthy c.error then
          { j2 with errors := j2.errors ++ [{ filename := c.file, error := c.error.getD "" }] }
        else j2
      (j3, .stored)
  | .stored =>
      let j1 : BatchJob := if job.total_files ≤ job.processed_files then
          { job with status := "completed"
                     end_time := some c.time
                     total_time := some (c.time - job.start_time) }
        else job
      (j1, .done)
  | .done => (job, .done)

/-- Run a schedule over a job shared by several in-flight update calls: each
schedule entry names the thread that executes its next atomic phase. -/
def microSched (defaultModel : String) : BatchJob → List (CallArgs × Phase) →
    List Nat → BatchJob × List (CallArgs × Phase)
  | job, threads, [] => (job, threads)
  | job, threads, t :: rest =>
      match threads[t]? with
      | none => microSched defaultModel job threads rest
      | some (c, ph) =>
          let s := microStep defaultModel job c ph
          microSched defaultModel s.1 (threads.set t (c, s.2)) rest

/-- Running the three phases of one call back to back, with no interference,
is exactly the atomic `update_batch_progress_job`. -/
def microRunSerial (defaultModel : String) (job : BatchJob) (c : CallArgs) : BatchJob :=
  let s1 := microStep defaultModel job c .start
  let s2 := microStep defaultModel s1.1 c s1.2
  (microStep defaultModel s2.1 c s2.2).1

/-! ## Association-list (dict) lemmas -/

theorem dget_dset_self {β : Type} (l : List (String × β)) (k : String) (v : β) :
    dget (dset l k v) k = some v := by
  induction l with
  | nil => simp [dget, dset]
  | cons p rest ih =>
    by_cases h : p.1 = k
    · simp [dget, dset, h]
    · simp [dget, dset, h, ih]

theorem dget_dset_ne {β : Type} (l : List (String × β)) (k k' : String) (v : β)
    (h : k ≠ k') : dget (dset l k v) k' = dget l k' := by
  induction l with
  | nil => simp [dget, dset, h]
  | cons p rest ih =>
    by_cases hp : p.1 = k
    · simp [dget, dset, hp, h]
    · simp [dget, dset, hp, ih]

theorem dget_none_of_not_mem_keys {β : Type} (l : List (String × β)) (k : String)
    (h : k ∉ l.map Prod.fst) : dget l k = none := by
  induction l with
  | nil => rfl
  | cons p rest ih =>
    simp only [List.map_cons, List.mem_cons] at h
    push_neg at h
    have h1 : ¬ p.1 = k := fun hq => h.1 hq.symm
    simp [dget, h1, ih h.2]

theorem keys_dset {β : Type} (l : List (String × β)) (k : String) (v : β) :
    (dset l k v).map Prod.fst = if k ∈ l.map Prod.fst then l.map Prod.fst
      else l.map Prod.fst ++ [k] := by
  induction l with
  | nil => simp [dset]
  | cons p rest ih =>
    by_cases hp : p.1 = k
    · simp [dset, hp]
    · have hne : ¬ k = p.1 := fun hq => hp hq.symm
      by_cases hk : k ∈ rest.map Prod.fst <;>
        simp [dset, hp, ih, hk, hne]

theorem keys_dset_nodup {β : Type} (l : List (String × β)) (k : String) (v : β)
    (h : (l.map Prod.fst).Nodup) : ((dset l k v).map Prod.fst).Nodup := by
  rw [keys_dset]
  by_cases hk : k ∈ l.map Prod.fst
  · simpa [hk]
  · simpa [hk, List.nodup_append] using h

/-! ## Step equations for the worker-report calls -/

theorem applyEvent_progress (dm : String) (job : BatchJob) (i : Nat) (f : String)
    (t : ℚ) (p : Int) (h : ¬ job.total_files ≤ job.processed_files) :
    applyEvent dm job ⟨i, f, t, .progress p⟩ =
      { job with individual_progress := dset job.individual_progress f p } := by
  simp [applyEvent, update_batch_progress_job, errTruthy, h]

theorem applyEvent_progress_fire (dm : String) (job : BatchJob) (i : Nat) (f : String)
    (t : ℚ) (p : Int) (h : job.total_files ≤ job.processed_files) :
    applyEvent dm job ⟨i, f, t, .progress p⟩ =
      { job with individual_progress := dset job.individual_progress f p
                 status := "completed"
                 end_time := some t
                 total_time := some (t - job.start_time) } := by
  simp [applyEvent, update_batch_progress_job, errTruthy, h]

theorem applyEvent_success_fire (dm : String) (job : BatchJob) (i : Nat) (f : String)
    (t : ℚ) (r : ResultRec) (h : job.total_files ≤ job.processed_files + 1) :
    applyEvent dm job ⟨i, f, t, .success r⟩ =
      { job with individual_progress := dset job.individual_progress f 100
                 processed_files := job.processed_files + 1
                 progress := ((job.processed_files + 1 : ℚ) / (job.total_files : ℚ)) * 100
                 results := job.results ++ [mkResultEntry dm f r]
                 status := "completed"
                 end_time := some t
                 total_time := some (t - job.start_time) } := by
  simp [applyEvent, update_batch_progress_job, errTruthy, h]

theorem applyEvent_success_nofire (dm : String) (job : BatchJob) (i : Nat) (f : String)
    (t : ℚ) (r : ResultRec) (h : ¬ job.total_files ≤ job.processed_files + 1) :
    applyEvent dm job ⟨i, f, t, .success r⟩ =
      { job with individual_progress := dset job.individual_progress f 100
                 processed_files := job.processed_files + 1
                 progress := ((job.processed_files + 1 : ℚ) / (job.total_files : ℚ)) * 100
                 results := job.results ++ [mkResultEntry dm f r] } := by
  simp [applyEvent, update_batch_progress_job, errTruthy, h]

theorem applyEvent_failure_fire (dm : String) (job : BatchJob) (i : Nat) (f : String)
    (t : ℚ) (m : String) (h : job.total_files ≤ job.processed_files + 1) :
    applyEvent dm job ⟨i, f, t, .failure m⟩ =
      { job with individual_progress := dset job.individual_progress f 0
                 processed_files := job.processed_files + 1
                 progress := ((job.processed_files + 1 : ℚ) / (job.total_files : ℚ)) * 100
                 errors := job.errors ++ (if m = "" then [] else [{ filename := f, error := m }])
                 status := "completed"
                 end_time := some t
                 total_time := some (t - job.start_time) } := by
  by_cases hm : m = "" <;>
    simp [applyEvent, update_batch_progress_job, errTruthy, h, hm]

theorem applyEvent_failure_nofire (dm : String) (job : BatchJob) (i : Nat) (f : String)
    (t : ℚ) (m : String) (h : ¬ job.total_files ≤ job.processed_files + 1) :
    applyEvent dm job ⟨i, f, t, .failure m⟩ =
      { job with individual_progress := dset job.individual_progress f 0
                 processed_files := job.processed_files + 1
                 progress := ((job.processed_files + 1 : ℚ) / (job.total_files : ℚ)) * 100
                 errors := job.errors ++ (if m = "" then [] else [{ filename := f, error := m }]) } := by
  by_cases hm : m = "" <;>
    simp [applyEvent, update_batch_progress_job, errTruthy, h, hm]

/-! ## Trace validity lemmas -/

theorem andE {a b : Bool} (h : (a && b) = true) : a = true ∧ b = true := by
  constructor <;> [exact (Bool.and_elim_left h); exact (Bool.and_elim_right h)]

theorem notE {a : Bool} (h : ¬ a = true) : a = false :=
  Bool.eq_false_iff.mpr h

theorem noLaterSameItem_append_left (l1 l2 : List Event)
    (h : noLaterSameItem (l1 ++ l2) = true) : noLaterSameItem l1 = true := by
  induction l1 with
  | nil => rfl
  | cons e rest ih =>
    simp only [List.cons_append, noLaterSameItem, Bool.and_eq_true] at h ⊢
    refine ⟨?_, ih h.2⟩
    rcases Bool.or_eq_true_iff.mp h.1 with h1 | h1
    · exact Bool.or_eq_true_iff.mpr (Or.inl h1)
    · refine Bool.or_eq_true_iff.mpr (Or.inr ?_)
      rw [List.all_eq_true] at h1 ⊢
      exact fun e2 he2 => h1 e2 (by simp [he2])

theorem validTrace_append_left (n : Nat) (l1 l2 : List Event)
    (h : validTrace n (l1 ++ l2) = true) : validTrace n l1 = true := by
  simp only [validTrace, Bool.and_eq_true] at h ⊢
  refine ⟨?_, noLaterSameItem_append_left l1 l2 h.2⟩
  rw [List.all_eq_true] at h ⊢
  exact fun e he => h.1 e (by simp [he])

theorem validTrace_take (n : Nat) (tr : List Event) (k : Nat)
    (h : validTrace n tr = true) : validTrace n (tr.take k) = true :=
  validTrace_append_left n (tr.take k) (tr.drop k)
    (by rwa [List.take_append_drop])

theorem noLaterSameItem_split (l1 l2 : List Event) (et : Event)
    (h : noLaterSameItem (l1 ++ et :: l2) = true) (ht : isTerminal et = true) :
    ∀ e ∈ l2, e.idx ≠ et.idx := by
  induction l1 with
  | nil =>
    simp only [List.nil_append, noLaterSameItem, Bool.and_eq_true, ht,
      Bool.not_true, Bool.false_or] at h
    intro e he
    have := (List.all_eq_true.mp h.1) e he
    simpa using this
  | cons e0 rest ih =>
    simp only [List.cons_append, noLaterSameItem, Bool.and_eq_true] at h
    exact ih h.2

/-- Trace validity forces each item to have at most one terminal report: the
item indices of the terminal events are pairwise distinct. -/
theorem terminal_idxs_nodup (n : Nat) (tr : List Event)
    (h : validTrace n tr = true) :
    ((tr.filter isTerminal).map Event.idx).Nodup := by
  have h2 : noLaterSameItem tr = true := (andE h).2
  clear h
  induction tr with
  | nil => simp
  | cons e rest ih =>
    simp only [noLaterSameItem, Bool.and_eq_true] at h2
    by_cases ht : isTerminal e = true
    · simp only [List.filter_cons, ht, if_pos, List.map_cons, List.nodup_cons]
      constructor
      · intro hmem
        simp only [List.mem_map] at hmem
        obtain ⟨e2, he2, hidx⟩ := hmem
        have he2r : e2 ∈ rest := List.mem_of_mem_filter he2
        rcases Bool.or_eq_true_iff.mp h2.1 with hcon | hall
        · simp [ht] at hcon
        · have := (List.all_eq_true.mp hall) e2 he2r
          simp [hidx] at this
      · exact ih h2.2
    · simp only [List.filter_cons, ht]
      exact ih h2.2

/-- Trace validity bounds the number of terminal reports by the item count. -/
theorem terminal_count_le (n : Nat) (tr : List Event)
    (h : validTrace n tr = true) : (tr.filter isTerminal).length ≤ n := by
  have hnd := terminal_idxs_nodup n tr h
  have hlt : ∀ x ∈ (tr.filter isTerminal).map Event.idx, x < n := by
    intro x hx
    simp only [List.mem_map] at hx
    obtain ⟨e, he, hidx⟩ := hx
    have her : e ∈ tr := List.mem_of_mem_filter he
    have := (List.all_eq_true.mp (andE h).1) e her
    simpa [hidx] using this
  have hsub : ((tr.filter isTerminal).map Event.idx).toFinset ⊆ Finset.range n := by
    intro x hx
    rw [List.mem_toFinset] at hx
    exact Finset.mem_range.mpr (hlt x hx)
  calc (tr.filter isTerminal).length
      = ((tr.filter isTerminal).map Event.idx).length := by simp
    _ = ((tr.filter isTerminal).map Event.idx).toFinset.card :=
        (List.toFinset_card_of_nodup hnd).symm
    _ ≤ (Finset.range n).card := Finset.card_le_card hsub
    _ = n := Finset.card_range n

/-- If a valid trace already contains `n` terminal reports, every item is
terminal in it. -/
theorem terminal_complete (n : Nat) (tr : List Event)
    (h : validTrace n tr = true) (hT : (tr.filter isTerminal).length = n) :
    ∀ i < n, i ∈ (tr.filter isTerminal).map Event.idx := by
  have hnd := terminal_idxs_nodup n tr h
  have hsub : ((tr.filter isTerminal).map Event.idx).toFinset ⊆ Finset.range n := by
    intro x hx
    rw [List.mem_toFinset] at hx
    simp only [List.mem_map] at hx
    obtain ⟨e, he, hidx⟩ := hx
    have her : e ∈ tr := List.mem_of_mem_filter he
    have := (List.all_eq_true.mp (andE h).1) e her
    exact Finset.mem_range.mpr (by simpa [hidx] using this)
  have hcard : (Finset.range n).card ≤
      ((tr.filter isTerminal).map Event.idx).toFinset.card := by
    rw [List.toFinset_card_of_nodup hnd, Finset.card_range]
    simp [hT]
  have heq := Finset.eq_of_subset_of_card_le hsub hcard
  intro i hi
  have : i ∈ ((tr.filter isTerminal).map Event.idx).toFinset := by
    rw [heq]; exact Finset.mem_range.mpr hi
  rwa [List.mem_toFinset] at this

/-- Once a valid trace accounts for all `n` items, it cannot be extended:
every item already has its terminal report, and no report may follow it. -/
theorem trace_frozen (n : Nat) (tr ext : List Event)
    (h : validTrace n (tr ++ ext) = true)
    (hT : (tr.filter isTerminal).length = n) : ext = [] := by
  rw [List.eq_nil_iff_forall_not_mem]
  intro e he
  have hidx : e.idx < n := by
    have := (List.all_eq_true.mp (andE h).1) e (by simp [he])
    simpa using this
  have htr := validTrace_append_left n tr ext h
  have hmem := terminal_complete n tr htr hT e.idx hidx
  simp only [List.mem_map] at hmem
  obtain ⟨et, het, hetidx⟩ := hmem
  have hterm : isTerminal et = true := List.of_mem_filter het
  obtain ⟨s, u, hsu⟩ := List.append_of_mem (List.mem_of_mem_filter het)
  have hsplit : tr ++ ext = s ++ et :: (u ++ ext) := by
    rw [hsu]; simp
  have hno : noLaterSameItem (s ++ et :: (u ++ ext)) = true := by
    rw [← hsplit]; exact (andE h).2
  have := noLaterSameItem_split s (u ++ ext) et hno hterm e (by simp [he])
  exact this hetidx.symm

/-! ## Counting lemmas -/

theorem isRecordedFailure_eq (e : Event) :
    isRecordedFailure e = (isFailureEv e && !(failureMsg e == "")) := by
  cases e with
  | mk i f t k => cases k <;> rfl

/-- Every terminal report is a success or a failure, so terminal counts split. -/
theorem terminal_count_split (tr : List Event) :
    (tr.filter isTerminal).length =
      (tr.filter isSuccessEv).length + (tr.filter isFailureEv).length := by
  induction tr with
  | nil => rfl
  | cons e rest ih =>
    cases e with
    | mk i f t k =>
      cases k <;> simp [List.filter_cons, isTerminal, isSuccessEv, isFailureEv, ih] <;> omega

/-- If every failure report in a trace carries a non-empty message, every
failure is recorded in `job['errors']`. -/
theorem recorded_eq_failures (tr : List Event)
    (h : ∀ e ∈ tr, isFailureEv e = true → failureMsg e ≠ "") :
    (tr.filter isRecordedFailure).length = (tr.filter isFailureEv).length := by
  induction tr with
  | nil => rfl
  | cons e rest ih =>
    have hrest := ih (fun e2 he2 => h e2 (by simp [he2]))
    by_cases hf : isFailureEv e = true
    · have hm : failureMsg e ≠ "" := h e (by simp) hf
      have hr : isRecordedFailure e = true := by
        rw [isRecordedFailure_eq, hf]
        simpa using hm
      simp [List.filter_cons, hf, hr, hrest]
    · have hr : isRecordedFailure e = false := by
        rw [isRecordedFailure_eq]
        simp [notE hf]
      simp [List.filter_cons, hf, hr, hrest]

/-! ## The master invariant of a job under worker reports -/

theorem runTrace_append (dm : String) (job : BatchJob) (l1 l2 : List Event) :
    runTrace dm job (l1 ++ l2) = runTrace dm (runTrace dm job l1) l2 := by
  simp [runTrace, List.foldl_append]

/-- Everything the accounting claims need about the job state reached by a
valid trace: the two count invariants, the completion characterisation, and
the shape of `end_time` / `total_time` on each side of the transition. -/
theorem runTrace_master (dm : String) (n : Nat) (t0 : ℚ) (tr : List Event)
    (hv : validTrace n tr = true) :
    (runTrace dm (initialJob n t0) tr).total_files = n ∧
    (runTrace dm (initialJob n t0) tr).start_time = t0 ∧
    (runTrace dm (initialJob n t0) tr).processed_files = (tr.filter isTerminal).length ∧
    (runTrace dm (initialJob n t0) tr).results.length = (tr.filter isSuccessEv).length ∧
    (runTrace dm (initialJob n t0) tr).errors.length = (tr.filter isRecordedFailure).length ∧
    ((runTrace dm (initialJob n t0) tr).status = "completed" ∨
      (runTrace dm (initialJob n t0) tr).status = "processing") ∧
    ((runTrace dm (initialJob n t0) tr).status = "completed" ↔
      (1 ≤ n ∧ (tr.filter isTerminal).length = n)) ∧
    ((runTrace dm (initialJob n t0) tr).status = "processing" →
      (runTrace dm (initialJob n t0) tr).end_time = none ∧
      (runTrace dm (initialJob n t0) tr).total_time = none) ∧
    ((runTrace dm (initialJob n t0) tr).status = "completed" →
      ∃ t, (runTrace dm (initialJob n t0) tr).end_time = some t ∧
        (runTrace dm (initialJob n t0) tr).total_time = some (t - t0)) := by
  induction tr using List.reverseRecOn with
  | nil =>
    refine ⟨rfl, rfl, rfl, rfl, rfl, Or.inr rfl, ?_, fun _ => ⟨rfl, rfl⟩, ?_⟩
    · constructor
      · intro h
        exact absurd (show ("processing" : String) = "completed" from h) (by decide)
      · rintro ⟨h1, h2⟩
        simp at h2
        omega
    · intro h
      exact absurd (show ("processing" : String) = "completed" from h) (by decide)
  | append_singleton l e ih =>
    have hvl : validTrace n l = true := validTrace_append_left n l [e] hv
    obtain ⟨hTot, hStart, hProc, hRes, hErr, hStat, hIff, hProcNone, hCompSome⟩ := ih hvl
    have hTle : (l.filter isTerminal).length ≤ n := terminal_count_le n l hvl
    have hTle' : ((l ++ [e]).filter isTerminal).length ≤ n := terminal_count_le n _ hv
    -- the state before the new report is not yet completed
    have hnotdone : (runTrace dm (initialJob n t0) l).status = "processing" := by
      rcases hStat with hc | hp
      · exfalso
        have hTn : (l.filter isTerminal).length = n := (hIff.mp hc).2
        have := trace_frozen n l [e] hv hTn
        simp at this
      · exact hp
    have hnc : ¬ (1 ≤ n ∧ (l.filter isTerminal).length = n) := by
      intro hx
      have := hIff.mpr hx
      rw [hnotdone] at this
      exact absurd this (by decide)
    have hidx : e.idx < n := by
      have := (List.all_eq_true.mp (andE hv).1) e (by simp)
      simpa using this
    have hnpos : 1 ≤ n := Nat.one_le_iff_ne_zero.mpr (by omega)
    have hTlt : (l.filter isTerminal).length < n := by
      rcases Nat.lt_or_ge (l.filter isTerminal).length n with h | h
      · exact h
      · exact absurd ⟨hnpos, Nat.le_antisymm hTle h⟩ hnc
    rw [runTrace_append]
    set s := runTrace dm (initialJob n t0) l with hs
    obtain ⟨i, f, t, k⟩ := e
    cases k with
    | progress p =>
      have hfire : ¬ s.total_files ≤ s.processed_files := by
        rw [hTot, hProc]; omega
      rw [show runTrace dm s [⟨i, f, t, .progress p⟩] =
            applyEvent dm s ⟨i, f, t, .progress p⟩ from rfl,
          applyEvent_progress dm s i f t p hfire]
      refine ⟨hTot, hStart, ?_, ?_, ?_, ?_, ?_, ?_, ?_⟩
      · simpa [List.filter_append, isTerminal] using hProc
      · simpa [List.filter_append, isSuccessEv] using hRes
      · simpa [List.filter_append, isRecordedFailure] using hErr
      · simpa using hStat
      · simpa [List.filter_append, isTerminal] using hIff
      · intro h
        exact hProcNone (by simpa using h)
      · intro h
        simpa using hCompSome (by simpa using h)
    | success r =>
      by_cases hfire : s.total_files ≤ s.processed_files + 1
      · have hTn : ((l ++ [(⟨i, f, t, .success r⟩ : Event)]).filter isTerminal).length = n := by
          have : (l.filter isTerminal).length + 1 = n := by
            rw [hTot, hProc] at hfire
            omega
          simpa [List.filter_append, isTerminal] using this
        rw [show runTrace dm s [⟨i, f, t, .success r⟩] =
              applyEvent dm s ⟨i, f, t, .success r⟩ from rfl,
            applyEvent_success_fire dm s i f t r hfire]
        refine ⟨hTot, hStart, ?_, ?_, ?_, Or.inl rfl, ?_, ?_, ?_⟩
        · simp [List.filter_append, isTerminal, hProc]
        · simp [List.filter_append, isSuccessEv, hRes]
        · simpa [List.filter_append, isRecordedFailure] using hErr
        · exact ⟨fun _ => ⟨hnpos, hTn⟩, fun _ => rfl⟩
        · intro h
          exact absurd (show ("completed" : String) = "processing" from h) (by decide)
        · intro _
          exact ⟨t, rfl, by rw [hStart]⟩
      · rw [show runTrace dm s [⟨i, f, t, .success r⟩] =
              applyEvent dm s ⟨i, f, t, .success r⟩ from rfl,
            applyEvent_success_nofire dm s i f t r hfire]
        refine ⟨hTot, hStart, ?_, ?_, ?_, Or.inr hnotdone, ?_, ?_, ?_⟩
        · simp [List.filter_append, isTerminal, hProc]
        · simp [List.filter_append, isSuccessEv, hRes]
        · simpa [List.filter_append, isRecordedFailure] using hErr
        · constructor
          · intro h
            have h2 : s.status = "completed" := h
            rw [hnotdone] at h2
            exact absurd h2 (by decide)
          · rintro ⟨h1, h2⟩
            exfalso
            rw [hTot, hProc] at hfire
            have hlen : ((l ++ [(⟨i, f, t, .success r⟩ : Event)]).filter isTerminal).length
                = (l.filter isTerminal).length + 1 := by
              simp [List.filter_append, isTerminal]
            omega
        · intro _
          exact hProcNone hnotdone
        · intro h
          have h2 : s.status = "completed" := h
          rw [hnotdone] at h2
          exact absurd h2 (by decide)
    | failure m =>
      by_cases hfire : s.total_files ≤ s.processed_files + 1
      · have hTn : ((l ++ [(⟨i, f, t, .failure m⟩ : Event)]).filter isTerminal).length = n := by
          have : (l.filter isTerminal).length + 1 = n := by
            rw [hTot, hProc] at hfire
            omega
          simpa [List.filter_append, isTerminal] using this
        rw [show runTrace dm s [⟨i, f, t, .failure m⟩] =
              applyEvent dm s ⟨i, f, t, .failure m⟩ from rfl,
            applyEvent_failure_fire dm s i f t m hfire]
        refine ⟨hTot, hStart, ?_, ?_, ?_, Or.inl rfl, ?_, ?_, ?_⟩
        · simp [List.filter_append, isTerminal, hProc]
        · simpa [List.filter_append, isSuccessEv] using hRes
        · by_cases hm : m = "" <;>
            simp [List.filter_append, isRecordedFailure, hm, hErr]
        · exact ⟨fun _ => ⟨hnpos, hTn⟩, fun _ => rfl⟩
        · intro h
          exact absurd (show ("completed" : String) = "processing" from h) (by decide)
        · intro _
          exact ⟨t, rfl, by rw [hStart]⟩
      · rw [show runTrace dm s [⟨i, f, t, .failure m⟩] =
              applyEvent dm s ⟨i, f, t, .failure m⟩ from rfl,
            applyEvent_failure_nofire dm s i f t m hfire]
        refine ⟨hTot, hStart, ?_, ?_, ?_, Or.inr hnotdone, ?_, ?_, ?_⟩
        · simp [List.filter_append, isTerminal, hProc]
        · simpa [List.filter_append, isSuccessEv] using hRes
        · by_cases hm : m = "" <;>
            simp [List.filter_append, isRecordedFailure, hm, hErr]
        · constructor
          · intro h
            have h2 : s.status = "completed" := h
            rw [hnotdone] at h2
            exact absurd h2 (by decide)
          · rintro ⟨h1, h2⟩
            exfalso
            rw [hTot, hProc] at hfire
            have hlen : ((l ++ [(⟨i, f, t, .failure m⟩ : Event)]).filter isTerminal).length
                = (l.filter isTerminal).length + 1 := by
              simp [List.filter_append, isTerminal]
            omega
        · intro _
          exact hProcNone hnotdone
        · intro h
          have h2 : s.status = "completed" := h
          rw [hnotdone] at h2
          exact absurd h2 (by decide)

/-! ## Irreversibility of the status field -/

/-- `update_batch_progress` only ever writes `'completed'` into `status`
(line 72); no call path writes `'processing'` after creation. -/
theorem applyEvent_status_completed (dm : String) (job : BatchJob) (e : Event)
    (h : job.status = "completed") : (applyEvent dm job e).status = "completed" := by
  obtain ⟨i, f, t, k⟩ := e
  cases k with
  | progress p =>
    by_cases hc : job.total_files ≤ job.processed_files
    · rw [applyEvent_progress_fire dm job i f t p hc]
    · rw [applyEvent_progress dm job i f t p hc]
      exact h
  | success r =>
    by_cases hc : job.total_files ≤ job.processed_files + 1
    · rw [applyEvent_success_fire dm job i f t r hc]
    · rw [applyEvent_success_nofire dm job i f t r hc]
      exact h
  | failure m =>
    by_cases hc : job.total_files ≤ job.processed_files + 1
    · rw [applyEvent_failure_fire dm job i f t m hc]
    · rw [applyEvent_failure_nofire dm job i f t m hc]
      exact h

theorem runTrace_status_completed (dm : String) (job : BatchJob) (l : List Event)
    (h : job.status = "completed") : (runTrace dm job l).status = "completed" := by
  induction l generalizing job with
  | nil => exact h
  | cons e rest ih =>
    exact ih (applyEvent dm job e) (applyEvent_status_completed dm job e h)

/-- A valid trace whose prefix already completed the batch is that prefix:
nothing runs after completion. -/
theorem take_eq_of_completed (dm : String) (n : Nat) (t0 : ℚ) (tr : List Event)
    (hv : validTrace n tr = true) (k : Nat)
    (hk : (runTrace dm (initialJob n t0) (tr.take k)).status = "completed") :
    tr.take k = tr := by
  have hvk : validTrace n (tr.take k) = true := validTrace_take n tr k hv
  have hmk := runTrace_master dm n t0 (tr.take k) hvk
  have hTn : ((tr.take k).filter isTerminal).length = n :=
    ((hmk.2.2.2.2.2.2.1).mp hk).2
  have hdrop : tr.drop k = [] := by
    apply trace_frozen n (tr.take k) (tr.drop k) _ hTn
    rwa [List.take_append_drop]
  calc tr.take k = tr.take k ++ tr.drop k := by rw [hdrop]; simp
    _ = tr := List.take_append_drop k tr

/-! ## Claim theorems -/

/-- Claim C1: for every batch job (`totalItems ≥ 1`, per the data model) and
every valid interleaving of its workers' reports, the job's status becomes
`'completed'` iff `processed_files` equals `total_files`; the transition is
irreversible and happens at most once (after any completed prefix the state
never changes again); `end_time` (completedAt) is unset before the transition,
set at it, and — since the state is frozen — repeated `get_batch_status`
reads after completion return an identical snapshot, in particular an
identical completion time. -/
theorem claim_C1_completion_transition (dm : String) (n : Nat) (t0 : ℚ)
    (tr : List Event) (hn : 1 ≤ n) (hv : validTrace n tr = true) :
    ((runTrace dm (initialJob n t0) tr).status = "completed" ↔
      (runTrace dm (initialJob n t0) tr).processed_files = n) ∧
    (∀ k k', k ≤ k' →
      (runTrace dm (initialJob n t0) (tr.take k)).status = "completed" →
      runTrace dm (initialJob n t0) (tr.take k') =
        runTrace dm (initialJob n t0) (tr.take k)) ∧
    (∀ k, (runTrace dm (initialJob n t0) (tr.take k)).status = "processing" →
      (runTrace dm (initialJob n t0) (tr.take k)).end_time = none) ∧
    (∀ k, (runTrace dm (initialJob n t0) (tr.take k)).status = "completed" →
      ∃ t, (runTrace dm (initialJob n t0) (tr.take k)).end_time = some t) ∧
    (∀ k k' bid, k ≤ k' →
      (runTrace dm (initialJob n t0) (tr.take k)).status = "completed" →
      get_batch_status [(bid, runTrace dm (initialJob n t0) (tr.take k'))] bid =
        get_batch_status [(bid, runTrace dm (initialJob n t0) (tr.take k))] bid) := by
  have hm := runTrace_master dm n t0 tr hv
  have hfreeze : ∀ k k', k ≤ k' →
      (runTrace dm (initialJob n t0) (tr.take k)).status = "completed" →
      runTrace dm (initialJob n t0) (tr.take k') =
        runTrace dm (initialJob n t0) (tr.take k) := by
    intro k k' hkk hk
    have h1 : tr.take k = tr := take_eq_of_completed dm n t0 tr hv k hk
    have hlen : tr.length ≤ k := by
      have := congrArg List.length h1
      simp at this
      omega
    have h2 : tr.take k' = tr := List.take_of_length_le (le_trans hlen hkk)
    rw [h1, h2]
  refine ⟨?_, hfreeze, ?_, ?_, ?_⟩
  · constructor
    · intro h
      rw [hm.2.2.1]
      exact (hm.2.2.2.2.2.2.1.mp h).2
    · intro h
      apply hm.2.2.2.2.2.2.1.mpr
      refine ⟨hn, ?_⟩
      rw [← hm.2.2.1]
      exact h
  · intro k hk
    have hmk := runTrace_master dm n t0 (tr.take k) (validTrace_take n tr k hv)
    exact (hmk.2.2.2.2.2.2.2.1 hk).1
  · intro k hk
    have hmk := runTrace_master dm n t0 (tr.take k) (validTrace_take n tr k hv)
    obtain ⟨t, ht, _⟩ := hmk.2.2.2.2.2.2.2.2 hk
    exact ⟨t, ht⟩
  · intro k k' bid hkk hk
    rw [hfreeze k k' hkk hk]

/-- Witness for C1: a one-item batch whose single worker succeeds. -/
theorem claim_C1_witness :
    (1 ≤ 1 ∧
      validTrace 1 [⟨0, "a", 5, .success ⟨"o", "p", 2, none⟩⟩] = true) ∧
    (((runTrace "u2net" (initialJob 1 0) [⟨0, "a", 5, .success ⟨"o", "p", 2, none⟩⟩]).status = "completed" ↔
      (runTrace "u2net" (initialJob 1 0) [⟨0, "a", 5, .success ⟨"o", "p", 2, none⟩⟩]).processed_files = 1) ∧
    (∀ k k', k ≤ k' →
      (runTrace "u2net" (initialJob 1 0) ([⟨0, "a", 5, .success ⟨"o", "p", 2, none⟩⟩].take k)).status = "completed" →
      runTrace "u2net" (initialJob 1 0) ([⟨0, "a", 5, .success ⟨"o", "p", 2, none⟩⟩].take k') =
        runTrace "u2net" (initialJob 1 0) ([⟨0, "a", 5, .success ⟨"o", "p", 2, none⟩⟩].take k)) ∧
    (∀ k, (runTrace "u2net" (initialJob 1 0) ([⟨0, "a", 5, .success ⟨"o", "p", 2, none⟩⟩].take k)).status = "processing" →
      (runTrace "u2net" (initialJob 1 0) ([⟨0, "a", 5, .success ⟨"o", "p", 2, none⟩⟩].take k)).end_time = none) ∧
    (∀ k, (runTrace "u2net" (initialJob 1 0) ([⟨0, "a", 5, .success ⟨"o", "p", 2, none⟩⟩].take k)).status = "completed" →
      ∃ t, (runTrace "u2net" (initialJob 1 0) ([⟨0, "a", 5, .success ⟨"o", "p", 2, none⟩⟩].take k)).end_time = some t) ∧
    (∀ k k' bid, k ≤ k' →
      (runTrace "u2net" (initialJob 1 0) ([⟨0, "a", 5, .success ⟨"o", "p", 2, none⟩⟩].take k)).status = "completed" →
      get_batch_status [(bid, runTrace "u2net" (initialJob 1 0) ([⟨0, "a", 5, .success ⟨"o", "p", 2, none⟩⟩].take k'))] bid =
        get_batch_status [(bid, runTrace "u2net" (initialJob 1 0) ([⟨0, "a", 5, .success ⟨"o", "p", 2, none⟩⟩].take k))] bid)) :=
  ⟨⟨by decide, by decide⟩,
    claim_C1_completion_transition "u2net" 1 0
      [⟨0, "a", 5, .success ⟨"o", "p", 2, none⟩⟩] (by decide) (by decide)⟩

/-- Counterexample to claim C2 as stated: a one-item batch whose worker fails
with an empty exception message (`str(e) == ""`, e.g. `ValueError()` from the
Transform).  Line 134 calls `update_batch_progress` with `error=""`;
line 53 increments `processed_files`, but line 65's truthiness test
`if error:` skips the append, so `processedCount = 1` while
`|results| + |errors| = 0`. -/
theorem claim_C2_counterexample :
    validTrace 1 [⟨0, "a", 3, .failure ""⟩] = true ∧
    (runTrace "u2net" (initialJob 1 0) [⟨0, "a", 3, .failure ""⟩]).processed_files = 1 ∧
    (runTrace "u2net" (initialJob 1 0) [⟨0, "a", 3, .failure ""⟩]).results.length = 0 ∧
    (runTrace "u2net" (initialJob 1 0) [⟨0, "a", 3, .failure ""⟩]).errors.length = 0 ∧
    (runTrace "u2net" (initialJob 1 0) [⟨0, "a", 3, .failure ""⟩]).processed_files ≠
      (runTrace "u2net" (initialJob 1 0) [⟨0, "a", 3, .failure ""⟩]).results.length +
        (runTrace "u2net" (initialJob 1 0) [⟨0, "a", 3, .failure ""⟩]).errors.length :=
  ⟨by decide, by decide, by decide, by decide, by decide⟩

/-- Claim C2 (amended): in every state reachable through the progress-update
operation — each item reported terminal at most once, and every failure
reported with a non-empty error message — `processedCount == |results| +
|errors|` and `processedCount <= totalItems`. -/
theorem claim_C2_accounting_invariant (dm : String) (n : Nat) (t0 : ℚ)
    (tr : List Event) (hv : validTrace n tr = true)
    (hmsg : ∀ e ∈ tr, isFailureEv e = true → failureMsg e ≠ "") :
    ∀ k, (runTrace dm (initialJob n t0) (tr.take k)).processed_files =
        (runTrace dm (initialJob n t0) (tr.take k)).results.length +
          (runTrace dm (initialJob n t0) (tr.take k)).errors.length ∧
      (runTrace dm (initialJob n t0) (tr.take k)).processed_files ≤ n := by
  intro k
  have hvk : validTrace n (tr.take k) = true := validTrace_take n tr k hv
  have hmk := runTrace_master dm n t0 (tr.take k) hvk
  have hrec : ((tr.take k).filter isRecordedFailure).length =
      ((tr.take k).filter isFailureEv).length :=
    recorded_eq_failures (tr.take k)
      (fun e he hf => hmsg e (List.mem_of_mem_take he) hf)
  have hsplit := terminal_count_split (tr.take k)
  have hle := terminal_count_le n (tr.take k) hvk
  refine ⟨?_, ?_⟩
  · rw [hmk.2.2.1, hmk.2.2.2.1, hmk.2.2.2.2.1, hrec, hsplit]
  · rw [hmk.2.2.1]
    exact hle

/-- Witness for C2's amended invariant: two items, one success and one failure
with a non-empty message. -/
theorem claim_C2_witness :
    (validTrace 2 [⟨0, "a", 1, .success ⟨"o", "p", 2, none⟩⟩, ⟨1, "b", 2, .failure "x"⟩] = true ∧
      (∀ e ∈ [(⟨0, "a", 1, .success ⟨"o", "p", 2, none⟩⟩ : Event), ⟨1, "b", 2, .failure "x"⟩],
        isFailureEv e = true → failureMsg e ≠ "")) ∧
    (∀ k, (runTrace "u2net" (initialJob 2 0)
          ([(⟨0, "a", 1, .success ⟨"o", "p", 2, none⟩⟩ : Event), ⟨1, "b", 2, .failure "x"⟩].take k)).processed_files =
        (runTrace "u2net" (initialJob 2 0)
          ([(⟨0, "a", 1, .success ⟨"o", "p", 2, none⟩⟩ : Event), ⟨1, "b", 2, .failure "x"⟩].take k)).results.length +
          (runTrace "u2net" (initialJob 2 0)
            ([(⟨0, "a", 1, .success ⟨"o", "p", 2, none⟩⟩ : Event), ⟨1, "b", 2, .failure "x"⟩].take k)).errors.length ∧
      (runTrace "u2net" (initialJob 2 0)
          ([(⟨0, "a", 1, .success ⟨"o", "p", 2, none⟩⟩ : Event), ⟨1, "b", 2, .failure "x"⟩].take k)).processed_files ≤ 2) :=
  ⟨⟨by decide, by decide⟩,
    claim_C2_accounting_invariant "u2net" 2 0
      [⟨0, "a", 1, .success ⟨"o", "p", 2, none⟩⟩, ⟨1, "b", 2, .failure "x"⟩]
      (by decide) (by decide)⟩

/-- `job['errors']` collects exactly the failure reports whose message
survives `if error:`. -/
theorem recorded_filter_eq (tr : List Event) :
    tr.filter isRecordedFailure =
      (tr.filter isFailureEv).filter (fun e => !(failureMsg e == "")) := by
  induction tr with
  | nil => rfl
  | cons e rest ih =>
    obtain ⟨i, f, t, k⟩ := e
    cases k with
    | progress p => simpa [List.filter_cons, isRecordedFailure, isFailureEv] using ih
    | success r => simpa [List.filter_cons, isRecordedFailure, isFailureEv] using ih
    | failure m =>
      by_cases hm : m = "" <;>
        simp [List.filter_cons, isRecordedFailure, isFailureEv, failureMsg, hm, ih]

/-- Counterexample to claim C6 as stated: an item that reached 50% progress
and then failed does not keep its last known progress value — the line-134
call passes `individual_progress=0`, resetting the entry to 0. -/
theorem claim_C6_counterexample :
    validTrace 1 [⟨0, "a", 1, .progress 50⟩, ⟨0, "a", 2, .failure "boom"⟩] = true ∧
    dget (runTrace "u2net" (initialJob 1 0)
        [⟨0, "a", 1, .progress 50⟩]).individual_progress "a" = some 50 ∧
    dget (runTrace "u2net" (initialJob 1 0)
        [⟨0, "a", 1, .progress 50⟩, ⟨0, "a", 2, .failure "boom"⟩]).individual_progress "a"
      = some 0 :=
  ⟨by decide, by decide, by decide⟩

/-- Claim C6 (amended): the item-progress entry is set to 100 by the success
report (line 128) and set to 0 by the failure report (line 134,
`individual_progress=0`); a failure resets the recorded progress rather than
leaving the last known value. -/
theorem claim_C6_item_progress (dm : String) (job : BatchJob) (i : Nat)
    (f : String) (t : ℚ) (r : ResultRec) (m : String) :
    dget (applyEvent dm job ⟨i, f, t, .success r⟩).individual_progress f = some 100 ∧
    dget (applyEvent dm job ⟨i, f, t, .failure m⟩).individual_progress f = some 0 := by
  constructor
  · by_cases hc : job.total_files ≤ job.processed_files + 1
    · rw [applyEvent_success_fire dm job i f t r hc]
      exact dget_dset_self job.individual_progress f 100
    · rw [applyEvent_success_nofire dm job i f t r hc]
      exact dget_dset_self job.individual_progress f 100
  · by_cases hc : job.total_files ≤ job.processed_files + 1
    · rw [applyEvent_failure_fire dm job i f t m hc]
      exact dget_dset_self job.individual_progress f 0
    · rw [applyEvent_failure_nofire dm job i f t m hc]
      exact dget_dset_self job.individual_progress f 0

/-- Counterexample to claim C7 as stated: one item, whose single Transform
failure carries an empty message.  The batch does reach `'completed'` with
`processedCount == N`, but `|errors| == 0`, not 1. -/
theorem claim_C7_counterexample :
    validTrace 1 [⟨0, "a", 4, .failure ""⟩] = true ∧
    (runTrace "u2net" (initialJob 1 0) [⟨0, "a", 4, .failure ""⟩]).status = "completed" ∧
    (runTrace "u2net" (initialJob 1 0) [⟨0, "a", 4, .failure ""⟩]).processed_files = 1 ∧
    (runTrace "u2net" (initialJob 1 0) [⟨0, "a", 4, .failure ""⟩]).errors.length = 0 ∧
    (runTrace "u2net" (initialJob 1 0) [⟨0, "a", 4, .failure ""⟩]).errors.length ≠ 1 :=
  ⟨by decide, by decide, by decide, by decide, by decide⟩

/-- Claim C7 (amended): in a batch of `N ≥ 1` items in which exactly one
item's Transform call fails — with a non-empty error message — and all other
items succeed, no sibling is aborted: the batch reaches `'completed'` with
`processedCount == N`, `|errors| == 1` and `|results| == N - 1`.  (With an
empty message the batch still completes with `processedCount == N`, but the
failure is not recorded, see the counterexample.) -/
theorem claim_C7_failure_isolation (dm : String) (n : Nat) (t0 : ℚ)
    (tr : List Event) (m : String) (hn : 1 ≤ n)
    (hv : validTrace n tr = true)
    (hall : (tr.filter isTerminal).length = n)
    (hfail : (tr.filter isFailureEv).map failureMsg = [m])
    (hm : m ≠ "") :
    (runTrace dm (initialJob n t0) tr).status = "completed" ∧
    (runTrace dm (initialJob n t0) tr).processed_files = n ∧
    (runTrace dm (initialJob n t0) tr).errors.length = 1 ∧
    (runTrace dm (initialJob n t0) tr).results.length = n - 1 := by
  have hm1 := runTrace_master dm n t0 tr hv
  have hflen : (tr.filter isFailureEv).length = 1 := by
    have := congrArg List.length hfail
    simpa using this
  obtain ⟨e0, he0⟩ := List.length_eq_one.mp hflen
  have he0m : failureMsg e0 = m := by
    have := hfail
    rw [he0] at this
    simpa using this
  have hrec : (tr.filter isRecordedFailure).length = 1 := by
    rw [recorded_filter_eq, he0]
    have : (!(failureMsg e0 == "")) = true := by
      simp [he0m, hm]
    simp [List.filter_cons, this]
  have hsplit := terminal_count_split tr
  refine ⟨?_, ?_, ?_, ?_⟩
  · exact hm1.2.2.2.2.2.2.1.mpr ⟨hn, hall⟩
  · rw [hm1.2.2.1]
    exact hall
  · rw [hm1.2.2.2.2.1]
    exact hrec
  · rw [hm1.2.2.2.1]
    omega

/-- Witness for C7's amended statement: two items, item 0 succeeds, item 1
fails with message `"x"`. -/
theorem claim_C7_witness :
    (1 ≤ 2 ∧
      validTrace 2 [⟨0, "a", 1, .success ⟨"o", "p", 2, none⟩⟩, ⟨1, "b", 2, .failure "x"⟩] = true ∧
      (([(⟨0, "a", 1, .success ⟨"o", "p", 2, none⟩⟩ : Event), ⟨1, "b", 2, .failure "x"⟩].filter isTerminal).length = 2) ∧
      (([(⟨0, "a", 1, .success ⟨"o", "p", 2, none⟩⟩ : Event), ⟨1, "b", 2, .failure "x"⟩].filter isFailureEv).map failureMsg = ["x"]) ∧
      ("x" : String) ≠ "") ∧
    ((runTrace "u2net" (initialJob 2 0)
        [⟨0, "a", 1, .success ⟨"o", "p", 2, none⟩⟩, ⟨1, "b", 2, .failure "x"⟩]).status = "completed" ∧
      (runTrace "u2net" (initialJob 2 0)
        [⟨0, "a", 1, .success ⟨"o", "p", 2, none⟩⟩, ⟨1, "b", 2, .failure "x"⟩]).processed_files = 2 ∧
      (runTrace "u2net" (initialJob 2 0)
        [⟨0, "a", 1, .success ⟨"o", "p", 2, none⟩⟩, ⟨1, "b", 2, .failure "x"⟩]).errors.length = 1 ∧
      (runTrace "u2net" (initialJob 2 0)
        [⟨0, "a", 1, .success ⟨"o", "p", 2, none⟩⟩, ⟨1, "b", 2, .failure "x"⟩]).results.length = 2 - 1) :=
  ⟨⟨by decide, by decide, by decide, by decide, by decide⟩,
    claim_C7_failure_isolation "u2net" 2 0
      [⟨0, "a", 1, .success ⟨"o", "p", 2, none⟩⟩, ⟨1, "b", 2, .failure "x"⟩] "x"
      (by decide) (by decide) (by decide) (by decide) (by decide)⟩

/-! ## Decimal formatting: digits only, and injectivity -/

theorem digitChar_ne_underscore (d : Nat) : digitChar d ≠ '_' := by
  unfold digitChar
  split <;> decide

theorem decCharsAux_ne_underscore (fuel : Nat) : ∀ n, n < fuel →
    ∀ c ∈ decCharsAux fuel n, c ≠ '_' := by
  induction fuel with
  | zero => intro n hn; omega
  | succ fuel ih =>
    intro n hn c hc
    rw [decCharsAux] at hc
    by_cases h10 : n < 10
    · rw [if_pos h10] at hc
      simp only [List.mem_singleton] at hc
      rw [hc]
      exact digitChar_ne_underscore n
    · rw [if_neg h10] at hc
      rcases List.mem_append.mp hc with hl | hr
      · have hdiv : n / 10 < fuel :=
          lt_of_lt_of_le (Nat.div_lt_self (by omega) (by omega)) (by omega)
        exact ih (n / 10) hdiv c hl
      · simp only [List.mem_singleton] at hr
        rw [hr]
        exact digitChar_ne_underscore (n % 10)

theorem decChars_ne_underscore (n : Nat) : ∀ c ∈ decChars n, c ≠ '_' :=
  decCharsAux_ne_underscore (n + 1) n (Nat.lt_succ_self n)

/-- Numeric value of a decimal digit character. -/
def chVal (c : Char) : Nat := c.toNat - 48

theorem chVal_digitChar : ∀ d, d < 10 → chVal (digitChar d) = d := by decide

/-- Value of a digit string, most significant digit first. -/
def charsVal (l : List Char) : Nat :=
  l.foldl (fun a c => a * 10 + chVal c) 0

theorem charsVal_append_digit (l : List Char) (c : Char) :
    charsVal (l ++ [c]) = charsVal l * 10 + chVal c := by
  simp [charsVal, List.foldl_append]

theorem charsVal_decCharsAux (fuel : Nat) : ∀ n, n < fuel →
    charsVal (decCharsAux fuel n) = n := by
  induction fuel with
  | zero => intro n hn; omega
  | succ fuel ih =>
    intro n hn
    rw [decCharsAux]
    by_cases h10 : n < 10
    · rw [if_pos h10]
      have : charsVal [digitChar n] = chVal (digitChar n) := by
        simp [charsVal]
      rw [this, chVal_digitChar n h10]
    · rw [if_neg h10, charsVal_append_digit]
      have hdiv : n / 10 < fuel :=
        lt_of_lt_of_le (Nat.div_lt_self (by omega) (by omega)) (by omega)
      rw [ih (n / 10) hdiv, chVal_digitChar (n % 10) (Nat.mod_lt n (by omega))]
      omega

theorem charsVal_decChars (n : Nat) : charsVal (decChars n) = n :=
  charsVal_decCharsAux (n + 1) n (Nat.lt_succ_self n)

theorem decChars_injective (a b : Nat) (h : decChars a = decChars b) : a = b := by
  have := congrArg charsVal h
  rwa [charsVal_decChars, charsVal_decChars] at this

/-- Splitting lists of characters at a separator that occurs in neither left
part is unambiguous. -/
theorem sep_split_inj (l1 : List Char) : ∀ l2 r1 r2 : List Char,
    (∀ c ∈ l1, c ≠ '_') → (∀ c ∈ l2, c ≠ '_') →
    l1 ++ '_' :: r1 = l2 ++ '_' :: r2 → l1 = l2 ∧ r1 = r2 := by
  induction l1 with
  | nil =>
    intro l2 r1 r2 _ h2 heq
    cases l2 with
    | nil =>
      simp only [List.nil_append] at heq
      exact ⟨rfl, (List.cons.injEq _ _ _ _ ▸ heq).2⟩
    | cons c l2' =>
      exfalso
      simp only [List.nil_append, List.cons_append] at heq
      have : c = '_' := (List.cons.injEq _ _ _ _ ▸ heq).1.symm
      exact h2 c (by simp) this
  | cons c l1' ih =>
    intro l2 r1 r2 h1 h2 heq
    cases l2 with
    | nil =>
      exfalso
      simp only [List.cons_append, List.nil_append] at heq
      have : c = '_' := (List.cons.injEq _ _ _ _ ▸ heq).1
      exact h1 c (by simp) this
    | cons d l2' =>
      simp only [List.cons_append] at heq
      have hcd : c = d := (List.cons.injEq _ _ _ _ ▸ heq).1
      have htl : l1' ++ '_' :: r1 = l2' ++ '_' :: r2 :=
        (List.cons.injEq _ _ _ _ ▸ heq).2
      have := ih l2' r1 r2 (fun x hx => h1 x (by simp [hx]))
        (fun x hx => h2 x (by simp [hx])) htl
      exact ⟨by rw [hcd, this.1], this.2⟩

/-- The decimal counter segment of a batch id determines the counter: two ids
formatted with different counter values differ, whatever the timestamps. -/
theorem batch_id_counter_inj (a b ta tb : Nat)
    (h : "batch_" ++ decString a ++ "_" ++ decString ta =
      "batch_" ++ decString b ++ "_" ++ decString tb) : a = b := by
  have hdata := congrArg String.data h
  simp only [String.data_append, decString] at hdata
  have hdata2 : ("batch_" : String).data ++ (decChars a ++ '_' :: decChars ta) =
      ("batch_" : String).data ++ (decChars b ++ '_' :: decChars tb) := by
    simpa [List.append_assoc] using hdata
  have hstrip := List.append_cancel_left hdata2
  have := sep_split_inj (decChars a) (decChars b) (decChars ta) (decChars tb)
    (decChars_ne_underscore a) (decChars_ne_underscore b) hstrip
  exact decChars_injective a b this.1

/-- Claim C9: `generate_batch_id` increments the counter under the lock, so
successive calls run it at distinct counter values; any two calls made at
distinct counter values return distinct ids regardless of the timestamps
(uniqueness rests on the counter, not on `int(time.time())`). -/
theorem claim_C9_unique_ids (c1 c2 t1 t2 : Nat) (h : c1 ≠ c2) :
    (generate_batch_id c1 t1).2 ≠ (generate_batch_id c2 t2).2 ∧
    (generate_batch_id c1 t1).1 = c1 + 1 := by
  refine ⟨?_, rfl⟩
  intro heq
  exact h (Nat.succ_injective (batch_id_counter_inj (c1 + 1) (c2 + 1) t1 t2 heq))

/-- Witness for C9: the first two calls of a processor lifetime, with equal
timestamps. -/
theorem claim_C9_witness :
    ((0 : Nat) ≠ 1) ∧
    ((generate_batch_id 0 5).2 ≠ (generate_batch_id 1 5).2 ∧
      (generate_batch_id 0 5).1 = 0 + 1) :=
  ⟨by decide, claim_C9_unique_ids 0 1 5 5 (by decide)⟩

/-! ## Registry filtering (eviction) lemmas -/

theorem dget_filter_none {β : Type} (P : String × β → Bool)
    (l : List (String × β)) (k : String) (h : dget l k = none) :
    dget (l.filter P) k = none := by
  induction l with
  | nil => rfl
  | cons p rest ih =>
    rw [dget] at h
    by_cases hk : p.1 = k
    · rw [if_pos hk] at h
      exact absurd h (by simp)
    · rw [if_neg hk] at h
      by_cases hP : P p = true
      · rw [List.filter_cons_of_pos hP, dget, if_neg hk]
        exact ih h
      · rw [List.filter_cons_of_neg (by simpa using hP)]
        exact ih h

theorem dget_filter_iff {β : Type} (P : String × β → Bool)
    (l : List (String × β)) (hnd : (l.map Prod.fst).Nodup) (k : String) (v : β) :
    dget (l.filter P) k = some v ↔ (dget l k = some v ∧ P (k, v) = true) := by
  induction l with
  | nil => simp [dget]
  | cons p rest ih =>
    have hnd2 : (p.1 :: rest.map Prod.fst).Nodup := by
      rw [← List.map_cons]
      exact hnd
    obtain ⟨hnotin, hndr⟩ := List.nodup_cons.mp hnd2
    by_cases hk : p.1 = k
    · by_cases hP : P p = true
      · rw [List.filter_cons_of_pos hP, dget, if_pos hk, dget, if_pos hk]
        constructor
        · intro hv
          have hv2 : p.2 = v := by simpa using hv
          refine ⟨hv, ?_⟩
          have : p = (k, v) := by
            rw [← hk, ← hv2]
          rwa [← this]
        · exact fun hx => hx.1
      · rw [List.filter_cons_of_neg (by simpa using hP), dget, if_pos hk]
        have hnone : dget rest k = none := by
          apply dget_none_of_not_mem_keys
          rw [← hk]
          exact hnotin
        rw [dget_filter_none P rest k hnone]
        constructor
        · intro hx
          exact absurd hx (by simp)
        · rintro ⟨hv, hPv⟩
          exfalso
          have hv2 : p.2 = v := by simpa using hv
          have : p = (k, v) := by
            rw [← hk, ← hv2]
          rw [this] at hP
          exact hP hPv
    · by_cases hP : P p = true
      · rw [List.filter_cons_of_pos hP, dget, if_neg hk, dget, if_neg hk]
        exact ih hndr
      · rw [List.filter_cons_of_neg (by simpa using hP), dget, if_neg hk]
        exact ih hndr

/-- Counterexample to claim C5 as stated: a completed job whose run started at
time 0 and completed at time 4000.  At `now = 4500` with `max_age = 3600` its
age by the claim's measure is `now - completedAt = 500 ≤ 3600`, yet
`cleanup_old_batches` evicts it, because line 210 always uses
`now - job['start_time'] = 4500 > 3600`. -/
theorem claim_C5_counterexample :
    (runTrace "u2net" (initialJob 1 0) [⟨0, "a", 4000, .success ⟨"o", "p", 2, none⟩⟩]).status
        = "completed" ∧
    (runTrace "u2net" (initialJob 1 0) [⟨0, "a", 4000, .success ⟨"o", "p", 2, none⟩⟩]).end_time
        = some 4000 ∧
    ¬ ((4500 : ℚ) - 4000 > 3600) ∧
    dget (cleanup_old_batches 4500
        [("b", runTrace "u2net" (initialJob 1 0) [⟨0, "a", 4000, .success ⟨"o", "p", 2, none⟩⟩])]
        3600) "b" = none := by
  refine ⟨by decide, by decide, by norm_num, ?_⟩
  have hstart : (runTrace "u2net" (initialJob 1 0)
      [⟨0, "a", 4000, .success ⟨"o", "p", 2, none⟩⟩]).start_time = 0 := by decide
  have hgt : (4500 : ℚ) - (runTrace "u2net" (initialJob 1 0)
      [⟨0, "a", 4000, .success ⟨"o", "p", 2, none⟩⟩]).start_time > 3600 := by
    rw [hstart]
    norm_num
  rw [cleanup_old_batches, List.filter_cons_of_neg (by simp [hgt])]
  rfl

/-- Claim C5 (amended): the retention sweep keeps exactly those jobs whose
`now - startedAt` does not exceed the configured max age — for completed and
never-completed jobs alike; `completedAt` plays no part in the age. -/
theorem claim_C5_retention_by_start_time (now max_age : ℚ) (jobs : Registry)
    (bid : String) (job : BatchJob) (hnd : (jobs.map Prod.fst).Nodup) :
    dget (cleanup_old_batches now jobs max_age) bid = some job ↔
      (dget jobs bid = some job ∧ ¬ now - job.start_time > max_age) := by
  rw [cleanup_old_batches, dget_filter_iff _ _ hnd]
  simp

/-- Witness for C5's amended statement: a young job is retained. -/
theorem claim_C5_witness :
    (([("b", initialJob 1 0)].map Prod.fst).Nodup) ∧
    (dget (cleanup_old_batches 10 [("b", initialJob 1 0)] 3600) "b" = some (initialJob 1 0) ↔
      (dget [("b", initialJob 1 0)] "b" = some (initialJob 1 0) ∧
        ¬ (10 : ℚ) - (initialJob 1 0).start_time > 3600)) :=
  ⟨by decide,
    claim_C5_retention_by_start_time 10 3600 [("b", initialJob 1 0)] "b"
      (initialJob 1 0) (by decide)⟩

/-- Counterexample to claim C8 as stated: a two-item batch with one item done
is still processing; a status read at any `now` (say `now = 105`, 5 seconds
after `startedAt = 100`) reports `total_time = 0` — `get_batch_status` does
not even receive the current time — instead of the elapsed `now - startedAt
= 5`. -/
theorem claim_C8_counterexample :
    (runTrace "u2net" (initialJob 2 100)
        [⟨0, "a", 103, .success ⟨"o", "p", 2, none⟩⟩]).status = "processing" ∧
    (get_batch_status
        [("b", runTrace "u2net" (initialJob 2 100)
          [⟨0, "a", 103, .success ⟨"o", "p", 2, none⟩⟩])] "b").map StatusView.total_time
      = some 0 ∧
    (0 : ℚ) ≠ 105 - 100 := by
  refine ⟨by decide, by decide, by norm_num⟩

/-- Claim C8 (amended): the status snapshot's elapsed-time field
(`total_time`) is `completedAt - startedAt` once the job is completed, and 0
while the job is still processing; it does not report the time since
`startedAt` for in-flight jobs. -/
theorem claim_C8_elapsed_field (dm : String) (n : Nat) (t0 : ℚ) (tr : List Event)
    (bid : String) (hv : validTrace n tr = true) :
    ((runTrace dm (initialJob n t0) tr).status = "processing" →
      (get_batch_status [(bid, runTrace dm (initialJob n t0) tr)] bid).map
          StatusView.total_time = some 0) ∧
    ((runTrace dm (initialJob n t0) tr).status = "completed" →
      ∃ t, (runTrace dm (initialJob n t0) tr).end_time = some t ∧
        (get_batch_status [(bid, runTrace dm (initialJob n t0) tr)] bid).map
            StatusView.total_time = some (t - t0)) := by
  have hm := runTrace_master dm n t0 tr hv
  constructor
  · intro h
    have htt : (runTrace dm (initialJob n t0) tr).total_time = none :=
      (hm.2.2.2.2.2.2.2.1 h).2
    simp [get_batch_status, dget, htt]
  · intro h
    obtain ⟨t, het, htt⟩ := hm.2.2.2.2.2.2.2.2 h
    exact ⟨t, het, by simp [get_batch_status, dget, htt]⟩

/-- Witness for C8's amended statement: the processing job of the
counterexample and a completed one-item job. -/
theorem claim_C8_witness :
    (validTrace 2 [⟨0, "a", 103, .success ⟨"o", "p", 2, none⟩⟩] = true) ∧
    (((runTrace "u2net" (initialJob 2 100)
        [⟨0, "a", 103, .success ⟨"o", "p", 2, none⟩⟩]).status = "processing" →
      (get_batch_status [("b", runTrace "u2net" (initialJob 2 100)
          [⟨0, "a", 103, .success ⟨"o", "p", 2, none⟩⟩])] "b").map
          StatusView.total_time = some 0) ∧
    ((runTrace "u2net" (initialJob 2 100)
        [⟨0, "a", 103, .success ⟨"o", "p", 2, none⟩⟩]).status = "completed" →
      ∃ t, (runTrace "u2net" (initialJob 2 100)
          [⟨0, "a", 103, .success ⟨"o", "p", 2, none⟩⟩]).end_time = some t ∧
        (get_batch_status [("b", runTrace "u2net" (initialJob 2 100)
            [⟨0, "a", 103, .success ⟨"o", "p", 2, none⟩⟩])] "b").map
            StatusView.total_time = some (t - 100))) :=
  ⟨by decide,
    claim_C8_elapsed_field "u2net" 2 100
      [⟨0, "a", 103, .success ⟨"o", "p", 2, none⟩⟩] "b" (by decide)⟩

/-- Counterexample to claim C4 as stated: submitting an empty file list is not
rejected — `process_batch` performs no validation, registers a job record with
`total_files = 0` and returns a batch id. -/
theorem claim_C4_counterexample :
    (process_batch ⟨0, []⟩ [] 7 7).2 = "batch_1_7" ∧
    dget (process_batch ⟨0, []⟩ [] 7 7).1.batch_jobs "batch_1_7" = some (initialJob 0 7) ∧
    dget (process_batch ⟨0, []⟩ [] 7 7).1.batch_jobs (process_batch ⟨0, []⟩ [] 7 7).2 ≠ none :=
  ⟨by decide, by decide, by decide⟩

/-- Claim C4 (amended): submitting a batch with an empty item list is accepted,
not rejected: from any processor state, `process_batch` creates and registers
a job record with `total_files = 0` and returns its id. -/
theorem claim_C4_empty_submission_accepted (st : ProcessorState) (now : ℚ)
    (tsec : Nat) :
    (process_batch st [] now tsec).2 = (generate_batch_id st.batch_counter tsec).2 ∧
    dget (process_batch st [] now tsec).1.batch_jobs (process_batch st [] now tsec).2 =
      some (initialJob 0 now) := by
  refine ⟨rfl, ?_⟩
  exact dget_dset_self st.batch_jobs (generate_batch_id st.batch_counter tsec).2
    (initialJob 0 now)

/-- A batch of zero items has no workers, hence no reports: the only valid
trace is empty. -/
theorem validTrace_zero (tr : List Event) (h : validTrace 0 tr = true) :
    tr = [] := by
  cases tr with
  | nil => rfl
  | cons e rest =>
    exfalso
    have := (List.all_eq_true.mp (andE h).1) e (by simp)
    simp at this

/-- `update_batch_progress` never removes a registry entry (it either returns
early on an unknown id or overwrites the existing binding). -/
theorem update_batch_progress_preserves_membership (dm : String) (jobs : Registry)
    (bid2 f stt : String) (res : Option ResultRec) (err : Option String)
    (ip : Option Int) (tm : ℚ) (k : String) :
    (dget (update_batch_progress dm jobs bid2 f stt res err ip tm) k).isSome =
      (dget jobs k).isSome := by
  unfold update_batch_progress
  cases hd : dget jobs bid2 with
  | none => rfl
  | some job =>
    by_cases hk : bid2 = k
    · subst hk
      rw [dget_dset_self, hd]
      rfl
    · rw [dget_dset_ne jobs bid2 k _ hk]

/-- Claim C10: submitting an empty file list nevertheless creates and
registers a job record with `total_files = 0`; with no workers there are no
progress reports, so in every reachable state the job keeps status
`'processing'`, `progress = 0` and `processed_files = 0` (it never completes);
progress updates never remove it from the registry, and the age-based sweep
removes it exactly when `now - startedAt` exceeds the max age. -/
theorem claim_C10_empty_batch_job (dm : String) (st : ProcessorState) (now : ℚ)
    (tsec : Nat) (hnd : (st.batch_jobs.map Prod.fst).Nodup) :
    dget (process_batch st [] now tsec).1.batch_jobs (process_batch st [] now tsec).2 =
      some (initialJob 0 now) ∧
    (initialJob 0 now).total_files = 0 ∧
    (∀ tr, validTrace 0 tr = true →
      runTrace dm (initialJob 0 now) tr = initialJob 0 now) ∧
    (initialJob 0 now).status = "processing" ∧
    (initialJob 0 now).progress = 0 ∧
    (initialJob 0 now).processed_files = 0 ∧
    (∀ bid2 f stt res err ip tm,
      (dget (update_batch_progress dm (process_batch st [] now tsec).1.batch_jobs
          bid2 f stt res err ip tm) (process_batch st [] now tsec).2).isSome =
        (dget (process_batch st [] now tsec).1.batch_jobs
          (process_batch st [] now tsec).2).isSome) ∧
    (∀ t2 maxAge : ℚ,
      dget (cleanup_old_batches t2 (process_batch st [] now tsec).1.batch_jobs maxAge)
          (process_batch st [] now tsec).2 = none ↔ t2 - now > maxAge) := by
  have hget : dget (process_batch st [] now tsec).1.batch_jobs
      (process_batch st [] now tsec).2 = some (initialJob 0 now) :=
    dget_dset_self st.batch_jobs (generate_batch_id st.batch_counter tsec).2
      (initialJob 0 now)
  have hnd' : ((process_batch st [] now tsec).1.batch_jobs.map Prod.fst).Nodup :=
    keys_dset_nodup st.batch_jobs _ _ hnd
  refine ⟨hget, rfl, ?_, rfl, rfl, rfl, ?_, ?_⟩
  · intro tr hv
    rw [validTrace_zero tr hv]
    rfl
  · intro bid2 f stt res err ip tm
    exact update_batch_progress_preserves_membership dm _ bid2 f stt res err ip tm _
  · intro t2 maxAge
    constructor
    · intro hnone
      by_contra hage
      have hkeep : dget (cleanup_old_batches t2
          (process_batch st [] now tsec).1.batch_jobs maxAge)
          (process_batch st [] now tsec).2 = some (initialJob 0 now) := by
        rw [cleanup_old_batches, dget_filter_iff _ _ hnd']
        refine ⟨hget, ?_⟩
        simpa using hage
      rw [hkeep] at hnone
      exact absurd hnone (by simp)
    · intro hage
      cases hd : dget (cleanup_old_batches t2
          (process_batch st [] now tsec).1.batch_jobs maxAge)
          (process_batch st [] now tsec).2 with
      | none => rfl
      | some j =>
        exfalso
        rw [cleanup_old_batches, dget_filter_iff _ _ hnd'] at hd
        have hj : j = initialJob 0 now := by
          have := hd.1
          rw [hget] at this
          exact (Option.some.injEq _ _ ▸ this).symm
        have := hd.2
        rw [hj] at this
        simp only [initialJob] at this
        simp at this
        linarith

/-- Witness for C10: an empty submission against a fresh processor. -/
theorem claim_C10_witness :
    (([] : Registry).map Prod.fst).Nodup ∧
    (dget (process_batch ⟨0, []⟩ [] 7 7).1.batch_jobs (process_batch ⟨0, []⟩ [] 7 7).2 =
      some (initialJob 0 7) ∧
    (initialJob 0 7).total_files = 0 ∧
    (∀ tr, validTrace 0 tr = true →
      runTrace "u2net" (initialJob 0 7) tr = initialJob 0 7) ∧
    (initialJob 0 7).status = "processing" ∧
    (initialJob 0 7).progress = 0 ∧
    (initialJob 0 7).processed_files = 0 ∧
    (∀ bid2 f stt res err ip tm,
      (dget (update_batch_progress "u2net" (process_batch ⟨0, []⟩ [] 7 7).1.batch_jobs
          bid2 f stt res err ip tm) (process_batch ⟨0, []⟩ [] 7 7).2).isSome =
        (dget (process_batch ⟨0, []⟩ [] 7 7).1.batch_jobs
          (process_batch ⟨0, []⟩ [] 7 7).2).isSome) ∧
    (∀ t2 maxAge : ℚ,
      dget (cleanup_old_batches t2 (process_batch ⟨0, []⟩ [] 7 7).1.batch_jobs maxAge)
          (process_batch ⟨0, []⟩ [] 7 7).2 = none ↔ t2 - 7 > maxAge)) :=
  ⟨by decide, claim_C10_empty_batch_job "u2net" ⟨0, []⟩ 7 7 (by decide)⟩

/-- Counterexample to claim C3 as stated: `update_batch_progress` takes no
lock (`self.batch_lock` guards only `generate_batch_id`), and the `+=` of
line 53 is a LOAD/STORE pair.  Interleave two workers' success reports on a
two-item batch — schedule `[0, 1, 0, 0, 1, 1]`: both LOAD `processed_files =
0`, then each STOREs 1 — and both calls run to completion (`Phase.done`), yet
one increment is lost: `processed_files = 1` while `|results| + |errors| = 2`,
and the batch is stuck at `'processing'`.  So the updates are not an atomic
locked read-modify-write, and interleaving does violate the accounting
invariants. -/
theorem claim_C3_lost_update :
    ((microSched "u2net" (initialJob 2 0)
        [(⟨"a", "completed", some ⟨"o", "p", 2, none⟩, none, some 100, 9⟩, .start),
          (⟨"b", "completed", some ⟨"o2", "p2", 3, none⟩, none, some 100, 9⟩, .start)]
        [0, 1, 0, 0, 1, 1]).2.map Prod.snd = [Phase.done, Phase.done]) ∧
    (microSched "u2net" (initialJob 2 0)
        [(⟨"a", "completed", some ⟨"o", "p", 2, none⟩, none, some 100, 9⟩, .start),
          (⟨"b", "completed", some ⟨"o2", "p2", 3, none⟩, none, some 100, 9⟩, .start)]
        [0, 1, 0, 0, 1, 1]).1.processed_files = 1 ∧
    (microSched "u2net" (initialJob 2 0)
        [(⟨"a", "completed", some ⟨"o", "p", 2, none⟩, none, some 100, 9⟩, .start),
          (⟨"b", "completed", some ⟨"o2", "p2", 3, none⟩, none, some 100, 9⟩, .start)]
        [0, 1, 0, 0, 1, 1]).1.results.length +
      (microSched "u2net" (initialJob 2 0)
        [(⟨"a", "completed", some ⟨"o", "p", 2, none⟩, none, some 100, 9⟩, .start),
          (⟨"b", "completed", some ⟨"o2", "p2", 3, none⟩, none, some 100, 9⟩, .start)]
        [0, 1, 0, 0, 1, 1]).1.errors.length = 2 ∧
    (microSched "u2net" (initialJob 2 0)
        [(⟨"a", "completed", some ⟨"o", "p", 2, none⟩, none, some 100, 9⟩, .start),
          (⟨"b", "completed", some ⟨"o2", "p2", 3, none⟩, none, some 100, 9⟩, .start)]
        [0, 1, 0, 0, 1, 1]).1.status = "processing" :=
  ⟨by decide, by decide, by decide, by decide⟩

/-- Claim C3 (amended): the update path holds no lock, so a call to
`update_batch_progress` is an atomic read-modify-write only when its
constituent steps run without interleaving: executed serially, the three
micro phases of one call compute exactly `update_batch_progress_job`
(whose per-call invariants the trace theorems establish), while interleaved
executions can lose increments, as the counterexample shows. -/
theorem claim_C3_serial_is_atomic_rmw (dm : String) (job : BatchJob) (c : CallArgs) :
    microRunSerial dm job c =
      update_batch_progress_job dm job c.file c.status c.result c.error c.ip c.time := by
  obtain ⟨f, stt, res, err, ip, t⟩ := c
  cases ip <;> cases res <;> cases err <;>
    simp [microRunSerial, microStep, update_batch_progress_job, errTruthy]

end RIB
